import Mathlib

/-
Verification of the option-pricing repository (Black-Scholes closed-form
pricers, Monte Carlo pricer, Newton-Raphson implied-volatility solver and
volatility-smile calibrator).

Embedding conventions:
* Python floats are modelled as real numbers.  A possibly-NaN float is
  modelled as `Option ℝ` with `none` standing for NaN; NaN propagates
  through arithmetic, every IEEE comparison involving NaN is false.
* The sole places where the source can produce a non-real value are the
  division by `sigma * sqrt T` in the Black-Scholes `d1` (numpy turns
  `x / 0.0` into `±inf` for `x ≠ 0` — and `norm.cdf (±inf)` is `1`/`0`,
  `norm.pdf (±inf)` is `0` — and `0.0 / 0.0` into NaN) and `np.mean` of
  an empty list (NaN).  The embedding spells out those cases explicitly.
* Raised exceptions are modelled with `Except PyErr`.
* `scipy.stats.norm.cdf`/`pdf` are the mathematical standard-normal
  cumulative distribution function and density.
* Randomness (`np.random.standard_normal`, `np.random.normal`) is an
  injected input: the drawn samples are passed as explicit lists.
-/

open MeasureTheory Set

noncomputable section

open scoped Classical

/-- Standard normal probability density (the mathematical content of
`scipy.stats.norm.pdf`). -/
def normPdf (x : ℝ) : ℝ := (Real.sqrt (2 * Real.pi))⁻¹ * Real.exp (-(x ^ 2) / 2)

/-- Standard normal cumulative distribution function (the mathematical
content of `scipy.stats.norm.cdf`). -/
def normCdf (x : ℝ) : ℝ := ∫ t in Iic x, normPdf t

/-- The Mills ratio reciprocal `Φ/φ`, used to prove nonnegativity of the
Black-Scholes price. -/
def cdfOverPdf (x : ℝ) : ℝ := normCdf x / normPdf x

/-! ## Embedding of the repository

Source files:
* `Black-Scholes and Monte Carlo for Option pricing/main.py` — `BSM`,
  `monte_carlo_option_pricing`;
* `mc_simulation_of_implied_volatility.py` — `black_scholes`,
  `implied_volatility`, `monte_carlo_volatility_smile`. -/

/-- The exceptions the two scripts can raise.  The first three are
`ValueError`s; `unboundLocal` models the `UnboundLocalError` that
`monte_carlo_option_pricing` hits when `option_type` is neither call nor
put (its `payoff` variable is never assigned). -/
inductive PyErr where
  | invalidInput : PyErr
  | zeroVega : PyErr
  | noConverge : PyErr
  | unboundLocal : PyErr
deriving DecidableEq

/-- Which of the modelled exceptions are Python `ValueError`s (the class
caught by the `except ValueError` in `monte_carlo_volatility_smile`). -/
def PyErr.isValueError : PyErr → Bool
  | PyErr.invalidInput => true
  | PyErr.zeroVega => true
  | PyErr.noConverge => true
  | PyErr.unboundLocal => false

/-- Numerator of `d1`: `np.log(S/K) + (r + 0.5*sigma**2)*T`. -/
def bsNum (S K T r sigma : ℝ) : ℝ := Real.log (S / K) + (r + 0.5 * sigma ^ 2) * T

/-- Denominator of `d1`: `sigma * np.sqrt(T)` (written `np.sqrt(T) * sigma`
in `main.py`; the product is the same). -/
def bsDen (T sigma : ℝ) : ℝ := sigma * Real.sqrt T

/-- Quantity `d1` of the Black-Scholes formula, in the generic case where its
denominator is nonzero. -/
def bsD1 (S K T r sigma : ℝ) : ℝ := bsNum S K T r sigma / bsDen T sigma

/-- Quantity `d2 = d1 - sigma*np.sqrt(T)`. -/
def bsD2 (S K T r sigma : ℝ) : ℝ := bsD1 S K T r sigma - sigma * Real.sqrt T

/-- The Black-Scholes price computation shared verbatim by `BSM` (main.py)
and `black_scholes` (mc_simulation_of_implied_volatility.py); `call = true`
selects the call branch, `call = false` the put branch.

The source computes `d1 = num / den` with float semantics.  When
`den = sigma*sqrt(T)` is zero (with `sigma = 0` the zero is `+0.0`, which
is the only zero-denominator case reachable with `T > 0`), numpy yields
`d1 = d2 = +inf` for `num > 0`, `-inf` for `num < 0` and NaN for
`num = 0`; `norm.cdf` maps `+inf, -inf, NaN` to `1, 0, NaN`.  The three
`else`-branches below spell out the resulting prices; `none` is NaN. -/
def bsmCore (S K T r sigma : ℝ) (call : Bool) : Option ℝ :=
  if bsDen T sigma ≠ 0 then
    let d1 := bsD1 S K T r sigma
    let d2 := d1 - sigma * Real.sqrt T
    some (if call then S * normCdf d1 - K * Real.exp (-(r * T)) * normCdf d2
          else K * Real.exp (-(r * T)) * normCdf (-d2) - S * normCdf (-d1))
  else if 0 < bsNum S K T r sigma then
    some (if call then S - K * Real.exp (-(r * T)) else 0)
  else if bsNum S K T r sigma < 0 then
    some (if call then 0 else K * Real.exp (-(r * T)) - S)
  else none

/-- Function `BSM` from `main.py`: `if OPT == "call"` takes the call branch and any
other string takes the `else` (put) branch; no validation, no exception. -/
def BSM (St K T r sigma : ℝ) (OPT : String) : Option ℝ :=
  if OPT = "call" then bsmCore St K T r sigma true
  else bsmCore St K T r sigma false

/-- Function `black_scholes` from `mc_simulation_of_implied_volatility.py`:
call branch, put branch, or `raise ValueError("Invalid option type...")`. -/
def black_scholes (S K T r sigma : ℝ) (option_type : String) :
    Except PyErr (Option ℝ) :=
  if option_type = "call" then Except.ok (bsmCore S K T r sigma true)
  else if option_type = "put" then Except.ok (bsmCore S K T r sigma false)
  else Except.error PyErr.invalidInput

/-- Variant of `black_scholes` applied to a possibly-NaN volatility (the Newton
iterate can be NaN): NaN in, NaN out — but the option-type check is
independent of `sigma` and still raises. -/
def black_scholesF (S K T r : ℝ) (sigma : Option ℝ) (option_type : String) :
    Except PyErr (Option ℝ) :=
  match sigma with
  | some s => black_scholes S K T r s option_type
  | none =>
    if option_type = "call" then Except.ok none
    else if option_type = "put" then Except.ok none
    else Except.error PyErr.invalidInput

/-- The vega expression of `implied_volatility`:
`S * norm.pdf((np.log(S/K) + (r + 0.5*sigma**2)*T)/(sigma*np.sqrt(T))) * np.sqrt(T)`,
evaluated with the same float semantics as `d1` (`norm.pdf(±inf) = 0`,
`norm.pdf(NaN) = NaN`). -/
def vegaF (S K T r : ℝ) (sigma : Option ℝ) : Option ℝ :=
  match sigma with
  | none => none
  | some s =>
    if bsDen T s ≠ 0 then some (S * normPdf (bsD1 S K T r s) * Real.sqrt T)
    else if bsNum S K T r s ≠ 0 then some (S * 0 * Real.sqrt T)
    else none

/-- Float addition with NaN propagation. -/
def fadd : Option ℝ → Option ℝ → Option ℝ
  | some a, some b => some (a + b)
  | _, _ => none

/-- Float subtraction with NaN propagation. -/
def fsub : Option ℝ → Option ℝ → Option ℝ
  | some a, some b => some (a - b)
  | _, _ => none

/-- Float division with NaN propagation (the solver divides only by a
vega it has checked to be nonzero). -/
def fdiv : Option ℝ → Option ℝ → Option ℝ
  | some a, some b => some (a / b)
  | _, _ => none

/-- The IEEE test `abs(diff) < tol`: false whenever `diff` is NaN. -/
def fabsLt (x : Option ℝ) (tol : ℝ) : Prop := ∃ d, x = some d ∧ |d| < tol

/-- The body of `implied_volatility`'s `for i in range(max_iter)` loop,
with the remaining iteration count as fuel and the current `sigma` as
state.  Per iteration: price via `black_scholes` (propagating its
exception), vega, `raise ValueError("Zero Vega...")` if `vega == 0`,
return `sigma` if `abs(diff) < tol`, else `sigma += diff / vega`.
Falling out of the loop raises `ValueError("...did not converge.")`. -/
def ivLoop (S K T r : ℝ) (market_price : Option ℝ) (option_type : String)
    (tol : ℝ) : ℕ → Option ℝ → Except PyErr (Option ℝ)
  | 0, _ => Except.error PyErr.noConverge
  | n + 1, sigma =>
    match black_scholesF S K T r sigma option_type with
    | Except.error e => Except.error e
    | Except.ok price =>
      let vega := vegaF S K T r sigma
      if vega = some 0 then Except.error PyErr.zeroVega
      else
        let diff := fsub market_price price
        if fabsLt diff tol then Except.ok sigma
        else ivLoop S K T r market_price option_type tol n
          (fadd sigma (fdiv diff vega))

/-- Function `implied_volatility` from the source: Newton-Raphson from the initial
guess `sigma = 0.2`, with defaults `tol=1e-5`, `max_iter=100`. -/
def implied_volatility (S K T r : ℝ) (market_price : Option ℝ)
    (option_type : String) (tol : ℝ) (max_iter : ℕ) :
    Except PyErr (Option ℝ) :=
  ivLoop S K T r market_price option_type tol max_iter (some 0.2)

/-- Model of `np.mean` of a list of floats: NaN when the list is empty or contains
a NaN, otherwise sum/length. -/
def fmean (xs : List (Option ℝ)) : Option ℝ :=
  if xs = [] then none
  else match xs.mapM id with
    | none => none
    | some ys => some (ys.sum / ys.length)

/-- Model of `np.linspace a b n`: `n` evenly spaced points from `a` to `b`
inclusive. -/
def linspace (a b : ℝ) (n : ℕ) : List ℝ :=
  (List.range n).map (fun i : ℕ => a + (b - a) * (i : ℝ) / ((n : ℝ) - 1))

/-- One iteration of the `for K in strike_prices` loop of
`monte_carlo_volatility_smile`: synthesize per-strike market prices from
the sampled volatilities, average them, and solve; the `try/except
ValueError` records NaN (`none`) when the solver raises a `ValueError`.
Note the market-price computation itself sits outside the `try`. -/
def smileStep (S T r K : ℝ) (sim_vols : List ℝ) : Except PyErr (Option ℝ) :=
  match sim_vols.mapM (fun s => black_scholes S K T r s ("call")) with
  | Except.error e => Except.error e
  | Except.ok market_prices =>
    match implied_volatility S K T r (fmean market_prices) ("call")
        (1 / 100000) 100 with
    | Except.ok iv => Except.ok iv
    | Except.error e => if e.isValueError then Except.ok none else Except.error e

/-- The synthetic average market price `np.mean(market_prices)` that
`monte_carlo_volatility_smile` feeds to the solver for one strike. -/
def smileMarketAvg (S K T r : ℝ) (sim_vols : List ℝ) : Option ℝ :=
  fmean (sim_vols.map (fun s => bsmCore S K T r s true))

/-- The per-strike entry the calibrator records: the solver result on
success, the NaN sentinel on a (caught) failure. -/
def smileVal (S T r K : ℝ) (sim_vols : List ℝ) : Option ℝ :=
  match implied_volatility S K T r (smileMarketAvg S K T r sim_vols) ("call")
      (1 / 100000) 100 with
  | Except.ok iv => iv
  | Except.error _ => none

/-- Function `monte_carlo_volatility_smile` from the source.  `sampled_vols i` is
the batch `np.random.normal(base_volatility, 0.05, n_simulations)` drawn
for the `i`-th strike (randomness is an injected input, so
`base_volatility` influences the run only through it).  The strike grid
is `np.linspace(S*0.8, S*1.2, 50)`. -/
def monte_carlo_volatility_smile (S T r base_volatility : ℝ)
    (sampled_vols : ℕ → List ℝ) : Except PyErr (List ℝ × List (Option ℝ)) :=
  let strike_prices := linspace (S * 0.8) (S * 1.2) 50
  match strike_prices.enum.mapM
      (fun p => smileStep S T r p.2 (sampled_vols p.1)) with
  | Except.error e => Except.error e
  | Except.ok implied_vols => Except.ok (strike_prices, implied_vols)

/-- Function `monte_carlo_option_pricing` from `main.py`, with the drawn shocks `Z`
as an injected input.  For an option type that is neither call nor put the
`payoff` variable is never assigned and `np.mean(payoff)` raises
`UnboundLocalError`; for `N = 0` the mean of an empty array is NaN. -/
def monte_carlo_option_pricing (S0 K T r sigma : ℝ) (Z : List ℝ)
    (option_type : String) : Except PyErr (Option ℝ) :=
  let ST := Z.map (fun z =>
    S0 * Real.exp ((r - 0.5 * sigma ^ 2) * T + sigma * z * Real.sqrt T))
  let payoff : Option (List ℝ) :=
    if option_type = "call" then some (ST.map (fun s => max 0 (s - K)))
    else if option_type = "put" then some (ST.map (fun s => max 0 (K - s)))
    else none
  match payoff with
  | none => Except.error PyErr.unboundLocal
  | some p =>
    if p = [] then Except.ok none
    else Except.ok (some (Real.exp (-(r * T)) * (p.sum / p.length)))

/-- Modelled from the spec (for the refinement claim C5): the claimed
result of the Monte Carlo pricer — `e^(-rT)` times the mean over the
scenarios of the payoff `max(0, Sᵢ-K)` (call) or `max(0, K-Sᵢ)` (put),
with `Sᵢ = S·exp((r - σ²/2)T + σ·Zᵢ·√T)`. -/
def mcSpecPrice (S0 K T r sigma : ℝ) (Z : List ℝ) (call : Bool) : ℝ :=
  Real.exp (-(r * T)) *
    ((Z.map (fun z =>
      let Si := S0 * Real.exp ((r - sigma ^ 2 / 2) * T + sigma * z * Real.sqrt T)
      if call then max 0 (Si - K) else max 0 (K - Si))).sum / Z.length)

/-! ## Facts about the standard normal distribution -/

theorem normPdf_pos (x : ℝ) : 0 < normPdf x := by
  have h2π : 0 < 2 * Real.pi := by positivity
  exact mul_pos (inv_pos.mpr (Real.sqrt_pos.mpr h2π)) (Real.exp_pos _)

theorem normPdf_neg (x : ℝ) : normPdf (-x) = normPdf x := by
  simp [normPdf, neg_pow]

theorem continuous_normPdf : Continuous normPdf := by
  unfold normPdf
  fun_prop

theorem normPdf_eq (x : ℝ) :
    normPdf x = (Real.sqrt (2 * Real.pi))⁻¹ * Real.exp (-(1 / 2 : ℝ) * x ^ 2) := by
  unfold normPdf
  ring_nf

theorem integrable_normPdf : Integrable normPdf := by
  have h : Integrable (fun x : ℝ => Real.exp (-(1 / 2 : ℝ) * x ^ 2)) :=
    integrable_exp_neg_mul_sq (by norm_num)
  have h2 := h.const_mul ((Real.sqrt (2 * Real.pi))⁻¹)
  refine h2.congr ?_
  filter_upwards with x
  rw [normPdf_eq]

theorem integral_normPdf : (∫ x : ℝ, normPdf x) = 1 := by
  have h : (∫ x : ℝ, normPdf x)
      = (Real.sqrt (2 * Real.pi))⁻¹ * ∫ x : ℝ, Real.exp (-(1 / 2 : ℝ) * x ^ 2) := by
    rw [← integral_mul_left]
    congr 1
    funext x
    rw [normPdf_eq]
  rw [h, integral_gaussian]
  have : Real.pi / (1 / 2 : ℝ) = 2 * Real.pi := by ring
  rw [this]
  have hpos : 0 < Real.sqrt (2 * Real.pi) := Real.sqrt_pos.mpr (by positivity)
  field_simp

theorem normCdf_nonneg (x : ℝ) : 0 ≤ normCdf x :=
  setIntegral_nonneg measurableSet_Iic fun t _ => (normPdf_pos t).le

theorem normCdf_le_one (x : ℝ) : normCdf x ≤ 1 := by
  have h := setIntegral_le_integral (s := Iic x) integrable_normPdf
    (Filter.Eventually.of_forall fun t => (normPdf_pos t).le)
  rw [integral_normPdf] at h
  exact h

/-- Symmetry of the standard normal distribution. -/
theorem normCdf_add_neg (x : ℝ) : normCdf x + normCdf (-x) = 1 := by
  have hneg : normCdf (-x) = ∫ t in Ioi x, normPdf t := by
    have h := integral_comp_neg_Iic (-x) normPdf
    rw [neg_neg] at h
    have h2 : (∫ t in Iic (-x), normPdf (-t)) = ∫ t in Iic (-x), normPdf t := by
      refine setIntegral_congr_fun measurableSet_Iic ?_
      intro t _
      exact normPdf_neg t
    rw [h2] at h
    exact h
  have hsplit := intervalIntegral.integral_Iic_add_Ioi (b := x)
    integrable_normPdf.integrableOn integrable_normPdf.integrableOn
  rw [integral_normPdf] at hsplit
  rw [normCdf, hneg]
  exact hsplit

theorem hasDerivAt_normPdf (x : ℝ) : HasDerivAt normPdf (-x * normPdf x) x := by
  have h1 : HasDerivAt (fun y : ℝ => -(y ^ 2) / 2) (-x) x := by
    have h := (hasDerivAt_pow 2 x).neg.div_const 2
    convert h using 1
    ring
  have h3 := (h1.exp).const_mul ((Real.sqrt (2 * Real.pi))⁻¹)
  have hd : -x * normPdf x
      = (Real.sqrt (2 * Real.pi))⁻¹ * (Real.exp (-(x ^ 2) / 2) * -x) := by
    simp only [normPdf]
    ring
  rw [hd]
  exact h3

theorem hasDerivAt_normCdf (x : ℝ) : HasDerivAt normCdf (normPdf x) x := by
  have key : normCdf = fun y : ℝ => normCdf 0 + ∫ t in (0:ℝ)..y, normPdf t := by
    funext y
    have h := intervalIntegral.integral_Iic_sub_Iic (a := (0:ℝ)) (b := y)
      integrable_normPdf.integrableOn integrable_normPdf.integrableOn
    rw [normCdf, normCdf]
    linarith [h]
  have h := ((continuous_normPdf.integral_hasStrictDerivAt 0 x).hasDerivAt).const_add
    (normCdf 0)
  rw [key]
  exact h

theorem tendsto_normPdf_atBot : Filter.Tendsto normPdf Filter.atBot (nhds 0) := by
  have hsq : Filter.Tendsto (fun x : ℝ => x ^ 2) Filter.atBot Filter.atTop := by
    have habs : Filter.Tendsto (fun x : ℝ => |x|) Filter.atBot Filter.atTop :=
      Filter.tendsto_abs_atBot_atTop
    have hpow : Filter.Tendsto (fun y : ℝ => y ^ 2) Filter.atTop Filter.atTop :=
      Filter.tendsto_pow_atTop two_ne_zero
    refine (hpow.comp habs).congr ?_
    intro x
    exact sq_abs x
  have h1 : Filter.Tendsto (fun x : ℝ => -(x ^ 2) / 2) Filter.atBot Filter.atBot := by
    have hneg : Filter.Tendsto (fun x : ℝ => -(x ^ 2)) Filter.atBot Filter.atBot :=
      Filter.tendsto_neg_atTop_atBot.comp hsq
    exact hneg.atBot_div_const (by norm_num)
  have h2 : Filter.Tendsto (fun x : ℝ => Real.exp (-(x ^ 2) / 2)) Filter.atBot (nhds 0) :=
    Real.tendsto_exp_atBot.comp h1
  have h3 := h2.const_mul ((Real.sqrt (2 * Real.pi))⁻¹)
  rw [mul_zero] at h3
  exact h3

theorem integrable_neg_mul_normPdf :
    Integrable (fun t : ℝ => -t * normPdf t) := by
  have h : Integrable (fun t : ℝ => t * Real.exp (-(1 / 2 : ℝ) * t ^ 2)) :=
    integrable_mul_exp_neg_mul_sq (by norm_num)
  have h2 := h.const_mul (-(Real.sqrt (2 * Real.pi))⁻¹)
  refine h2.congr ?_
  filter_upwards with t
  rw [normPdf_eq]
  ring

/-- Integrating the density of the tail moment: the antiderivative of
`-t * normPdf t` is `normPdf` itself. -/
theorem integral_neg_mul_normPdf (c : ℝ) :
    (∫ t in Iic c, -t * normPdf t) = normPdf c := by
  have h : (∫ t in Iic c, -t * normPdf t) = normPdf c - 0 :=
    integral_Iic_of_hasDerivAt_of_tendsto'
      (fun y _ => hasDerivAt_normPdf y)
      integrable_neg_mul_normPdf.integrableOn
      tendsto_normPdf_atBot
  rw [h]
  ring

/-- Mills-type tail bound: for `c < 0`, `Φ(c) ≤ φ(c) / (-c)`. -/
theorem normCdf_le_pdf_div (c : ℝ) (hc : c < 0) :
    normCdf c ≤ normPdf c / (-c) := by
  have hcpos : (0:ℝ) < -c := by linarith
  have hmono : normCdf c ≤ ∫ t in Iic c, (-t * normPdf t) / (-c) := by
    rw [normCdf]
    apply setIntegral_mono_on
    · exact integrable_normPdf.integrableOn
    · exact (integrable_neg_mul_normPdf.div_const (-c)).integrableOn
    · exact measurableSet_Iic
    · intro t ht
      have ht' : t ≤ c := ht
      have hφ := normPdf_pos t
      rw [le_div_iff₀ hcpos]
      nlinarith
  calc normCdf c ≤ ∫ t in Iic c, (-t * normPdf t) / (-c) := hmono
    _ = (∫ t in Iic c, -t * normPdf t) / (-c) := by rw [integral_div]
    _ = normPdf c / (-c) := by rw [integral_neg_mul_normPdf]

theorem hasDerivAt_cdfOverPdf (x : ℝ) :
    HasDerivAt cdfOverPdf (1 + x * cdfOverPdf x) x := by
  have h := (hasDerivAt_normCdf x).div (hasDerivAt_normPdf x)
    (ne_of_gt (normPdf_pos x))
  have heq : cdfOverPdf = fun y : ℝ => normCdf y / normPdf y := rfl
  rw [heq]
  convert h using 1
  have hφ := normPdf_pos x
  field_simp [cdfOverPdf]
  ring

theorem deriv_cdfOverPdf_nonneg (x : ℝ) : 0 ≤ 1 + x * cdfOverPdf x := by
  rcases le_or_lt 0 x with hx | hx
  · have h : 0 ≤ cdfOverPdf x := div_nonneg (normCdf_nonneg x) (normPdf_pos x).le
    nlinarith
  · have hm := normCdf_le_pdf_div x hx
    have hφ := normPdf_pos x
    have hmul : normCdf x * (-x) ≤ normPdf x := by
      rw [le_div_iff₀ (by linarith : (0:ℝ) < -x)] at hm
      exact hm
    have hcore : 0 ≤ (normPdf x + x * normCdf x) / normPdf x :=
      div_nonneg (by nlinarith) hφ.le
    have heq : 1 + x * cdfOverPdf x = (normPdf x + x * normCdf x) / normPdf x := by
      field_simp [cdfOverPdf]
    rw [heq]
    exact hcore

theorem monotone_cdfOverPdf : Monotone cdfOverPdf := by
  apply monotone_of_deriv_nonneg
  · exact fun x => (hasDerivAt_cdfOverPdf x).differentiableAt
  · intro x
    rw [(hasDerivAt_cdfOverPdf x).deriv]
    exact deriv_cdfOverPdf_nonneg x

/-- Hazard-rate monotonicity in product form: for `b ≤ a`,
`Φ(b)·φ(a) ≤ Φ(a)·φ(b)`. -/
theorem normCdf_mul_normPdf_le (a b : ℝ) (h : b ≤ a) :
    normCdf b * normPdf a ≤ normCdf a * normPdf b := by
  have hmono := monotone_cdfOverPdf h
  rw [cdfOverPdf, cdfOverPdf,
    div_le_div_iff₀ (normPdf_pos b) (normPdf_pos a)] at hmono
  exact hmono


/-! ## Core facts about the closed-form price -/

/-- With `T > 0` a vanishing `d1`-denominator means exactly `sigma = 0`. -/
theorem bsDen_eq_zero_iff (T sigma : ℝ) (hT : 0 < T) :
    bsDen T sigma = 0 ↔ sigma = 0 := by
  unfold bsDen
  constructor
  · intro h
    rcases mul_eq_zero.mp h with h | h
    · exact h
    · exact absurd h (ne_of_gt (Real.sqrt_pos.mpr hT))
  · intro h
    rw [h, zero_mul]

/-- Generic-case call branch of the shared computation. -/
theorem bsmCore_call_eq (S K T r sigma : ℝ) (hden : bsDen T sigma ≠ 0) :
    bsmCore S K T r sigma true
      = some (S * normCdf (bsD1 S K T r sigma)
          - K * Real.exp (-(r * T)) * normCdf (bsD2 S K T r sigma)) := by
  unfold bsmCore
  rw [if_pos hden]
  rfl

/-- Generic-case put branch of the shared computation. -/
theorem bsmCore_put_eq (S K T r sigma : ℝ) (hden : bsDen T sigma ≠ 0) :
    bsmCore S K T r sigma false
      = some (K * Real.exp (-(r * T)) * normCdf (-bsD2 S K T r sigma)
          - S * normCdf (-bsD1 S K T r sigma)) := by
  unfold bsmCore
  rw [if_pos hden]
  rfl

/-- Put-call parity of the shared Black-Scholes computation, away from the
doubly-degenerate NaN point (`den = 0` and `num = 0`). -/
theorem bsmCore_parity (S K T r sigma : ℝ)
    (h : ¬(bsDen T sigma = 0 ∧ bsNum S K T r sigma = 0)) :
    ∃ c p : ℝ, bsmCore S K T r sigma true = some c ∧
      bsmCore S K T r sigma false = some p ∧
      c - p = S - K * Real.exp (-(r * T)) := by
  by_cases hden : bsDen T sigma = 0
  · have hnum : bsNum S K T r sigma ≠ 0 := fun hn => h ⟨hden, hn⟩
    rcases lt_or_gt_of_ne hnum with hlt | hgt
    · refine ⟨0, K * Real.exp (-(r * T)) - S, ?_, ?_, by ring⟩ <;>
        simp [bsmCore, hden, hlt, asymm hlt]
    · refine ⟨S - K * Real.exp (-(r * T)), 0, ?_, ?_, by ring⟩ <;>
        simp [bsmCore, hden, hgt]
  · refine ⟨_, _, bsmCore_call_eq S K T r sigma hden,
      bsmCore_put_eq S K T r sigma hden, ?_⟩
    have h1 := normCdf_add_neg (bsD1 S K T r sigma)
    have h2 := normCdf_add_neg (bsD2 S K T r sigma)
    linear_combination S * h1 - K * Real.exp (-(r * T)) * h2

/-- The classical identity `K e^{-rT} φ(d2) = S φ(d1)` (equivalently: call
vega equals put vega), needed for nonnegativity of the price. -/
theorem bs_pdf_identity (S K T r sigma : ℝ) (hS : 0 < S) (hK : 0 < K)
    (hT : 0 < T) (hden : bsDen T sigma ≠ 0) :
    K * Real.exp (-(r * T)) * normPdf (bsD2 S K T r sigma)
      = S * normPdf (bsD1 S K T r sigma) := by
  have hmul : bsD1 S K T r sigma * bsDen T sigma = bsNum S K T r sigma :=
    div_mul_cancel₀ _ hden
  simp only [bsNum, bsDen] at hmul
  have hsq : (sigma * Real.sqrt T) ^ 2 = sigma ^ 2 * T := by
    rw [mul_pow, Real.sq_sqrt hT.le]
  have harg : -((bsD1 S K T r sigma - sigma * Real.sqrt T) ^ 2) / 2
      = -(bsD1 S K T r sigma ^ 2) / 2 + (Real.log (S / K) + r * T) := by
    linear_combination hmul - (1 / 2 : ℝ) * hsq
  have hd2 : bsD2 S K T r sigma = bsD1 S K T r sigma - sigma * Real.sqrt T := rfl
  have hK0 : (K : ℝ) ≠ 0 := ne_of_gt hK
  have hexp2 : K * Real.exp (-((bsD1 S K T r sigma - sigma * Real.sqrt T) ^ 2) / 2)
      = Real.exp (-(bsD1 S K T r sigma ^ 2) / 2) * S * Real.exp (r * T) := by
    rw [harg, Real.exp_add, Real.exp_add, Real.exp_log (div_pos hS hK)]
    field_simp
    ring
  have hrT : Real.exp (-(r * T)) * Real.exp (r * T) = 1 := by
    rw [← Real.exp_add]
    simp
  rw [hd2]
  unfold normPdf
  linear_combination ((Real.sqrt (2 * Real.pi))⁻¹ * Real.exp (-(r * T))) * hexp2
    + ((Real.sqrt (2 * Real.pi))⁻¹ * S
        * Real.exp (-(bsD1 S K T r sigma ^ 2) / 2)) * hrT

/-- Nonnegativity of the Black-Scholes price (both branches), away from
the doubly-degenerate NaN point. -/
theorem bsmCore_nonneg (S K T r sigma : ℝ) (hS : 0 < S) (hK : 0 < K)
    (hT : 0 < T) (hσ : 0 ≤ sigma)
    (h : ¬(bsDen T sigma = 0 ∧ bsNum S K T r sigma = 0)) (call : Bool) :
    ∃ v, bsmCore S K T r sigma call = some v ∧ 0 ≤ v := by
  have hKe : 0 < K * Real.exp (-(r * T)) := by positivity
  by_cases hden : bsDen T sigma = 0
  · have hσ0 : sigma = 0 := (bsDen_eq_zero_iff T sigma hT).mp hden
    have hnum : bsNum S K T r sigma ≠ 0 := fun hn => h ⟨hden, hn⟩
    have hnum_eq : bsNum S K T r sigma = Real.log (S / K) + r * T := by
      simp [bsNum, hσ0]
    rcases lt_or_gt_of_ne hnum with hlt | hgt
    · -- d1 = d2 = -inf: call price 0, put price K e^{-rT} - S ≥ 0
      have hSK : S < K * Real.exp (-(r * T)) := by
        have hlog : Real.log (S / K) < -(r * T) := by
          rw [hnum_eq] at hlt
          linarith
        have hx := Real.exp_lt_exp.mpr hlog
        rw [Real.exp_log (div_pos hS hK)] at hx
        calc S = S / K * K := by field_simp
          _ < Real.exp (-(r * T)) * K := mul_lt_mul_of_pos_right hx hK
          _ = K * Real.exp (-(r * T)) := by ring
      cases call
      · refine ⟨K * Real.exp (-(r * T)) - S, ?_, by linarith⟩
        simp [bsmCore, hden, hlt, asymm hlt]
      · refine ⟨0, ?_, le_refl 0⟩
        simp [bsmCore, hden, hlt, asymm hlt]
    · have hSK : K * Real.exp (-(r * T)) < S := by
        have hlog : -(r * T) < Real.log (S / K) := by
          rw [hnum_eq] at hgt
          linarith
        have hx := Real.exp_lt_exp.mpr hlog
        rw [Real.exp_log (div_pos hS hK)] at hx
        calc K * Real.exp (-(r * T)) = Real.exp (-(r * T)) * K := by ring
          _ < S / K * K := mul_lt_mul_of_pos_right hx hK
          _ = S := by field_simp
      cases call
      · refine ⟨0, ?_, le_refl 0⟩
        simp [bsmCore, hden, hgt]
      · refine ⟨S - K * Real.exp (-(r * T)), ?_, by linarith⟩
        simp [bsmCore, hden, hgt]
  · have hσpos : 0 < sigma := by
      rcases hσ.lt_or_eq with h1 | h1
      · exact h1
      · exact absurd ((bsDen_eq_zero_iff T sigma hT).mpr h1.symm) hden
    have hord : bsD2 S K T r sigma ≤ bsD1 S K T r sigma := by
      have hpos : 0 < sigma * Real.sqrt T := by positivity
      simp only [bsD2]
      linarith
    have hid := bs_pdf_identity S K T r sigma hS hK hT hden
    cases call
    · -- put branch: S Φ(-d1) ≤ K e^{-rT} Φ(-d2)
      refine ⟨_, bsmCore_put_eq S K T r sigma hden, ?_⟩
      have hcross := normCdf_mul_normPdf_le (-bsD2 S K T r sigma)
        (-bsD1 S K T r sigma) (by linarith)
      rw [normPdf_neg, normPdf_neg] at hcross
      have hsub : K * Real.exp (-(r * T))
            * (normCdf (-bsD1 S K T r sigma) * normPdf (bsD2 S K T r sigma))
          = (S * normCdf (-bsD1 S K T r sigma)) * normPdf (bsD1 S K T r sigma) := by
        linear_combination normCdf (-bsD1 S K T r sigma) * hid
      have hmul := mul_le_mul_of_nonneg_left hcross hKe.le
      rw [hsub] at hmul
      nlinarith [hmul, normPdf_pos (bsD1 S K T r sigma)]
    · -- call branch: K e^{-rT} Φ(d2) ≤ S Φ(d1)
      refine ⟨_, bsmCore_call_eq S K T r sigma hden, ?_⟩
      have hcross := normCdf_mul_normPdf_le (bsD1 S K T r sigma)
        (bsD2 S K T r sigma) hord
      have hsub : K * Real.exp (-(r * T))
            * (normCdf (bsD1 S K T r sigma) * normPdf (bsD2 S K T r sigma))
          = (S * normCdf (bsD1 S K T r sigma)) * normPdf (bsD1 S K T r sigma) := by
        linear_combination normCdf (bsD1 S K T r sigma) * hid
      have hmul := mul_le_mul_of_nonneg_left hcross hKe.le
      rw [hsub] at hmul
      nlinarith [hmul, normPdf_pos (bsD1 S K T r sigma)]


/-! ## Lemmas about the solver -/

theorem fsub_none_right (x : Option ℝ) : fsub x none = none := by
  cases x <;> rfl

theorem fsub_to_none (x y : Option ℝ) (hy : y = none) : fsub x y = none := by
  rw [hy]
  exact fsub_none_right x

theorem fabsLt_none (tol : ℝ) : ¬ fabsLt none tol := by
  rintro ⟨d, hd, _⟩
  exact Option.noConfusion hd

theorem black_scholes_call_ok (S K T r s : ℝ) :
    black_scholes S K T r s ("call") = Except.ok (bsmCore S K T r s true) := by
  unfold black_scholes
  rw [if_pos rfl]

theorem black_scholes_put_ok (S K T r s : ℝ) :
    black_scholes S K T r s ("put") = Except.ok (bsmCore S K T r s false) := by
  unfold black_scholes
  rw [if_neg (by decide), if_pos rfl]

/-- With a valid option type, `black_scholes` never raises. -/
theorem black_scholesF_valid (S K T r : ℝ) (sigma : Option ℝ)
    (option_type : String)
    (hot : option_type = "call" ∨ option_type = "put") :
    ∃ p, black_scholesF S K T r sigma option_type = Except.ok p := by
  cases sigma with
  | some s =>
    rcases hot with h | h <;> subst h
    · exact ⟨_, black_scholes_call_ok S K T r s⟩
    · exact ⟨_, black_scholes_put_ok S K T r s⟩
  | none =>
    rcases hot with h | h <;> subst h
    · exact ⟨none, by unfold black_scholesF; rw [if_pos rfl]⟩
    · exact ⟨none, by unfold black_scholesF; rw [if_neg (by decide), if_pos rfl]⟩

/-- Unfolding one solver iteration when the price computation succeeds. -/
theorem ivLoop_succ_ok (S K T r : ℝ) (mp : Option ℝ) (option_type : String)
    (tol : ℝ) (n : ℕ) (sigma p : Option ℝ)
    (hp : black_scholesF S K T r sigma option_type = Except.ok p) :
    ivLoop S K T r mp option_type tol (n + 1) sigma
      = (if vegaF S K T r sigma = some 0 then Except.error PyErr.zeroVega
         else if fabsLt (fsub mp p) tol then Except.ok sigma
         else ivLoop S K T r mp option_type tol n
           (fadd sigma (fdiv (fsub mp p) (vegaF S K T r sigma)))) := by
  conv_lhs => unfold ivLoop
  rw [hp]

/-- Unfolding one solver iteration when the price computation raises. -/
theorem ivLoop_succ_err (S K T r : ℝ) (mp : Option ℝ) (option_type : String)
    (tol : ℝ) (n : ℕ) (sigma : Option ℝ) (e : PyErr)
    (hp : black_scholesF S K T r sigma option_type = Except.error e) :
    ivLoop S K T r mp option_type tol (n + 1) sigma = Except.error e := by
  conv_lhs => unfold ivLoop
  rw [hp]

/-- Once the Newton iterate is NaN it stays NaN: the price is NaN, the
convergence test is false, and the loop runs to exhaustion. -/
theorem ivLoop_sigma_none (S K T r : ℝ) (mp : Option ℝ) (tol : ℝ) :
    ∀ fuel : ℕ, ivLoop S K T r mp ("call") tol fuel none
      = Except.error PyErr.noConverge := by
  intro fuel
  induction fuel with
  | zero => rfl
  | succ n ih =>
    have hbs : black_scholesF S K T r none ("call") = Except.ok none := by
      unfold black_scholesF
      rw [if_pos rfl]
    rw [ivLoop_succ_ok S K T r mp ("call") tol n none none hbs]
    rw [if_neg (by simp [vegaF])]
    rw [if_neg (by rw [fsub_none_right]; exact fabsLt_none tol)]
    have hupd : fadd none (fdiv (fsub mp none) (vegaF S K T r none)) = none := by
      rw [fsub_none_right]
      rfl
    rw [hupd]
    exact ih

/-- A NaN market price can never satisfy `abs(diff) < tol`, so (unless a
zero vega interrupts, which the hypothesis rules out for the first step
and NaN rules out later) the solver exhausts its iterations. -/
theorem implied_volatility_nan_mp (S K T r tol : ℝ) (max_iter : ℕ)
    (h1 : 1 ≤ max_iter) (hveg : vegaF S K T r (some 0.2) ≠ some 0) :
    implied_volatility S K T r none ("call") tol max_iter
      = Except.error PyErr.noConverge := by
  unfold implied_volatility
  cases max_iter with
  | zero => omega
  | succ n =>
    have hbs : black_scholesF S K T r (some 0.2) ("call")
        = Except.ok (bsmCore S K T r 0.2 true) := black_scholes_call_ok S K T r 0.2
    have hfs : fsub none (bsmCore S K T r 0.2 true) = none := rfl
    rw [ivLoop_succ_ok S K T r none ("call") tol n (some 0.2) _ hbs]
    rw [if_neg hveg]
    rw [if_neg (by rw [hfs]; exact fabsLt_none tol)]
    have hupd : fadd (some 0.2)
        (fdiv (fsub none (bsmCore S K T r 0.2 true)) (vegaF S K T r (some 0.2)))
        = none := by
      rw [hfs]
      cases vegaF S K T r (some 0.2) <;> rfl
    rw [hupd]
    exact ivLoop_sigma_none S K T r none tol n

/-- Every exception escaping the solver loop on a valid option type is one
of the two solver `ValueError`s. -/
theorem ivLoop_error_cases (S K T r : ℝ) (mp : Option ℝ) (option_type : String)
    (tol : ℝ) (hot : option_type = "call" ∨ option_type = "put") :
    ∀ (fuel : ℕ) (sigma : Option ℝ) (e : PyErr),
      ivLoop S K T r mp option_type tol fuel sigma = Except.error e →
      e = PyErr.zeroVega ∨ e = PyErr.noConverge := by
  intro fuel
  induction fuel with
  | zero =>
    intro sigma e h
    unfold ivLoop at h
    injection h with h2
    exact Or.inr h2.symm
  | succ n ih =>
    intro sigma e h
    rcases black_scholesF_valid S K T r sigma option_type hot with ⟨p, hp⟩
    rw [ivLoop_succ_ok S K T r mp option_type tol n sigma p hp] at h
    by_cases hveg : vegaF S K T r sigma = some 0
    · rw [if_pos hveg] at h
      injection h with h2
      exact Or.inl h2.symm
    · rw [if_neg hveg] at h
      by_cases hconv : fabsLt (fsub mp p) tol
      · rw [if_pos hconv] at h
        exact Except.noConfusion h
      · rw [if_neg hconv] at h
        exact ih _ e h


/-! ## Lemmas about the smile calibrator -/

theorem mapM_ok_of_forall {α β : Type} (f : α → Except PyErr β) (g : α → β)
    (hfg : ∀ a, f a = Except.ok (g a)) :
    ∀ l : List α, l.mapM f = Except.ok (l.map g) := by
  intro l
  induction l with
  | nil => rfl
  | cons a l ih => rw [List.mapM_cons, hfg a, ih]; rfl

theorem mapM_black_scholes_call (S K T r : ℝ) (sim_vols : List ℝ) :
    sim_vols.mapM (fun s => black_scholes S K T r s ("call"))
      = Except.ok (sim_vols.map (fun s => bsmCore S K T r s true)) :=
  mapM_ok_of_forall _ _ (fun s => black_scholes_call_ok S K T r s) sim_vols

/-- Unfolding one calibrator iteration once the market-price list is
known to compute. -/
theorem smileStep_ok_prices (S T r K : ℝ) (sim_vols : List ℝ)
    (prices : List (Option ℝ))
    (hp : sim_vols.mapM (fun s => black_scholes S K T r s ("call"))
      = Except.ok prices) :
    smileStep S T r K sim_vols
      = match implied_volatility S K T r (fmean prices) ("call")
            (1 / 100000) 100 with
        | Except.ok iv => Except.ok iv
        | Except.error e =>
            if e.isValueError then Except.ok none else Except.error e := by
  conv_lhs => unfold smileStep
  rw [hp]

/-- A calibrator step never raises: on a valid option type all solver
exceptions are `ValueError`s, and the `try/except ValueError` catches
them and records the sentinel. -/
theorem smileStep_eq (S T r K : ℝ) (sim_vols : List ℝ) :
    smileStep S T r K sim_vols = Except.ok (smileVal S T r K sim_vols) := by
  rw [smileStep_ok_prices S T r K sim_vols _
    (mapM_black_scholes_call S K T r sim_vols)]
  rw [show fmean (sim_vols.map (fun s => bsmCore S K T r s true))
    = smileMarketAvg S K T r sim_vols from rfl]
  unfold smileVal
  cases hres : implied_volatility S K T r (smileMarketAvg S K T r sim_vols)
      ("call") (1 / 100000) 100 with
  | ok iv => rfl
  | error e =>
    have he := ivLoop_error_cases S K T r (smileMarketAvg S K T r sim_vols)
      ("call") (1 / 100000) (Or.inl rfl) 100 (some 0.2) e hres
    rcases he with h | h <;> subst h <;> rfl

theorem smile_match (S T r bv : ℝ) (sampled_vols : ℕ → List ℝ)
    (ivs : List (Option ℝ))
    (hp : (linspace (S * 0.8) (S * 1.2) 50).enum.mapM
        (fun p => smileStep S T r p.2 (sampled_vols p.1)) = Except.ok ivs) :
    monte_carlo_volatility_smile S T r bv sampled_vols
      = Except.ok (linspace (S * 0.8) (S * 1.2) 50, ivs) := by
  show (match (linspace (S * 0.8) (S * 1.2) 50).enum.mapM
      (fun p => smileStep S T r p.2 (sampled_vols p.1)) with
    | Except.error e => Except.error e
    | Except.ok implied_vols =>
        Except.ok (linspace (S * 0.8) (S * 1.2) 50, implied_vols))
    = Except.ok (linspace (S * 0.8) (S * 1.2) 50, ivs)
  rw [hp]

/-- The calibrator never fails, and its output is the strike grid paired
with the per-strike solver-or-sentinel values, positionally aligned. -/
theorem smile_eq (S T r bv : ℝ) (sampled_vols : ℕ → List ℝ) :
    monte_carlo_volatility_smile S T r bv sampled_vols
      = Except.ok (linspace (S * 0.8) (S * 1.2) 50,
          (linspace (S * 0.8) (S * 1.2) 50).enum.map
            (fun p => smileVal S T r p.2 (sampled_vols p.1))) := by
  have h := mapM_ok_of_forall
    (fun p : ℕ × ℝ => smileStep S T r p.2 (sampled_vols p.1))
    (fun p : ℕ × ℝ => smileVal S T r p.2 (sampled_vols p.1))
    (fun p => smileStep_eq S T r p.2 (sampled_vols p.1))
    ((linspace (S * 0.8) (S * 1.2) 50).enum)
  exact smile_match S T r bv sampled_vols _ h

theorem linspace_length (a b : ℝ) (n : ℕ) : (linspace a b n).length = n := by
  unfold linspace
  rw [List.length_map, List.length_range]

theorem linspace_getD (a b : ℝ) (n i : ℕ) (hi : i < n) :
    (linspace a b n).getD i 0 = a + (b - a) * i / ((n : ℝ) - 1) := by
  unfold linspace
  rw [List.getD_eq_getElem?_getD, List.getElem?_map, List.getElem?_range hi]
  rfl


/-! ## Lemmas about the Monte Carlo pricer -/

theorem monte_carlo_call_eq (S0 K T r sigma : ℝ) (Z : List ℝ) (hZ : Z ≠ []) :
    monte_carlo_option_pricing S0 K T r sigma Z ("call")
      = Except.ok (some (mcSpecPrice S0 K T r sigma Z true)) := by
  have hmap : (Z.map (fun z =>
        S0 * Real.exp ((r - 0.5 * sigma ^ 2) * T + sigma * z * Real.sqrt T))).map
      (fun s => max 0 (s - K))
      = Z.map (fun z =>
          let Si := S0 * Real.exp ((r - sigma ^ 2 / 2) * T + sigma * z * Real.sqrt T)
          if true then max 0 (Si - K) else max 0 (K - Si)) := by
    rw [List.map_map]
    refine List.map_congr_left ?_
    intro z _
    have harg : (r - 0.5 * sigma ^ 2) * T + sigma * z * Real.sqrt T
        = (r - sigma ^ 2 / 2) * T + sigma * z * Real.sqrt T := by ring
    simp only [Function.comp, harg, if_true]
  have hne : (Z.map (fun z =>
        S0 * Real.exp ((r - 0.5 * sigma ^ 2) * T + sigma * z * Real.sqrt T))).map
      (fun s => max 0 (s - K)) ≠ [] := by
    simpa using hZ
  show (match (if ("call" : String) = "call" then
        some ((Z.map (fun z =>
          S0 * Real.exp ((r - 0.5 * sigma ^ 2) * T + sigma * z * Real.sqrt T))).map
          (fun s => max 0 (s - K)))
      else if ("call" : String) = "put" then
        some ((Z.map (fun z =>
          S0 * Real.exp ((r - 0.5 * sigma ^ 2) * T + sigma * z * Real.sqrt T))).map
          (fun s => max 0 (K - s)))
      else none : Option (List ℝ)) with
    | none => Except.error PyErr.unboundLocal
    | some p =>
      if p = [] then Except.ok none
      else Except.ok (some (Real.exp (-(r * T)) * (p.sum / p.length))))
    = Except.ok (some (mcSpecPrice S0 K T r sigma Z true))
  rw [if_pos rfl]
  show (if _ = ([] : List ℝ) then Except.ok none
      else Except.ok (some (Real.exp (-(r * T)) * (_ / _)))) = _
  rw [if_neg hne]
  unfold mcSpecPrice
  rw [hmap, List.length_map]

theorem monte_carlo_put_eq (S0 K T r sigma : ℝ) (Z : List ℝ) (hZ : Z ≠ []) :
    monte_carlo_option_pricing S0 K T r sigma Z ("put")
      = Except.ok (some (mcSpecPrice S0 K T r sigma Z false)) := by
  have hmap : (Z.map (fun z =>
        S0 * Real.exp ((r - 0.5 * sigma ^ 2) * T + sigma * z * Real.sqrt T))).map
      (fun s => max 0 (K - s))
      = Z.map (fun z =>
          let Si := S0 * Real.exp ((r - sigma ^ 2 / 2) * T + sigma * z * Real.sqrt T)
          if false then max 0 (Si - K) else max 0 (K - Si)) := by
    rw [List.map_map]
    refine List.map_congr_left ?_
    intro z _
    have harg : (r - 0.5 * sigma ^ 2) * T + sigma * z * Real.sqrt T
        = (r - sigma ^ 2 / 2) * T + sigma * z * Real.sqrt T := by ring
    simp only [Function.comp, harg]
    rfl
  have hne : (Z.map (fun z =>
        S0 * Real.exp ((r - 0.5 * sigma ^ 2) * T + sigma * z * Real.sqrt T))).map
      (fun s => max 0 (K - s)) ≠ [] := by
    simpa using hZ
  show (match (if ("put" : String) = "call" then
        some ((Z.map (fun z =>
          S0 * Real.exp ((r - 0.5 * sigma ^ 2) * T + sigma * z * Real.sqrt T))).map
          (fun s => max 0 (s - K)))
      else if ("put" : String) = "put" then
        some ((Z.map (fun z =>
          S0 * Real.exp ((r - 0.5 * sigma ^ 2) * T + sigma * z * Real.sqrt T))).map
          (fun s => max 0 (K - s)))
      else none : Option (List ℝ)) with
    | none => Except.error PyErr.unboundLocal
    | some p =>
      if p = [] then Except.ok none
      else Except.ok (some (Real.exp (-(r * T)) * (p.sum / p.length))))
    = Except.ok (some (mcSpecPrice S0 K T r sigma Z false))
  rw [if_neg (by decide), if_pos rfl]
  show (if _ = ([] : List ℝ) then Except.ok none
      else Except.ok (some (Real.exp (-(r * T)) * (_ / _)))) = _
  rw [if_neg hne]
  unfold mcSpecPrice
  rw [hmap, List.length_map]

theorem mcSpecPrice_nonneg (S0 K T r sigma : ℝ) (Z : List ℝ) (call : Bool) :
    0 ≤ mcSpecPrice S0 K T r sigma Z call := by
  unfold mcSpecPrice
  have hsum : 0 ≤ (Z.map (fun z =>
      let Si := S0 * Real.exp ((r - sigma ^ 2 / 2) * T + sigma * z * Real.sqrt T)
      if call then max 0 (Si - K) else max 0 (K - Si))).sum := by
    apply List.sum_nonneg
    intro x hx
    rcases List.mem_map.mp hx with ⟨z, _, hval⟩
    rw [← hval]
    cases call
    · exact le_max_left 0 _
    · exact le_max_left 0 _
  have hlen : (0:ℝ) ≤ ((Z.map (fun z =>
      let Si := S0 * Real.exp ((r - sigma ^ 2 / 2) * T + sigma * z * Real.sqrt T)
      if call then max 0 (Si - K) else max 0 (K - Si))).length : ℝ) := by
    positivity
  exact mul_nonneg (Real.exp_pos _).le (by positivity)

/-- For an option type that is neither call nor put, `payoff` is never
assigned and `np.mean(payoff)` raises `UnboundLocalError`. -/
theorem monte_carlo_invalid_type (S0 K T r sigma : ℝ) (Z : List ℝ) (t : String)
    (h1 : t ≠ "call") (h2 : t ≠ "put") :
    monte_carlo_option_pricing S0 K T r sigma Z t
      = Except.error PyErr.unboundLocal := by
  show (match (if t = "call" then
        some ((Z.map (fun z =>
          S0 * Real.exp ((r - 0.5 * sigma ^ 2) * T + sigma * z * Real.sqrt T))).map
          (fun s => max 0 (s - K)))
      else if t = "put" then
        some ((Z.map (fun z =>
          S0 * Real.exp ((r - 0.5 * sigma ^ 2) * T + sigma * z * Real.sqrt T))).map
          (fun s => max 0 (K - s)))
      else none : Option (List ℝ)) with
    | none => Except.error PyErr.unboundLocal
    | some p =>
      if p = [] then Except.ok none
      else Except.ok (some (Real.exp (-(r * T)) * (p.sum / p.length))))
    = Except.error PyErr.unboundLocal
  rw [if_neg h1, if_neg h2]


theorem fsub_none_left (x : Option ℝ) : fsub none x = none := by
  cases x <;> rfl

theorem vegaF_some (S K T r s : ℝ) (hden : bsDen T s ≠ 0) :
    vegaF S K T r (some s) = some (S * normPdf (bsD1 S K T r s) * Real.sqrt T) := by
  show (if bsDen T s ≠ 0 then some (S * normPdf (bsD1 S K T r s) * Real.sqrt T)
      else if bsNum S K T r s ≠ 0 then some (S * 0 * Real.sqrt T) else none)
    = some (S * normPdf (bsD1 S K T r s) * Real.sqrt T)
  rw [if_pos hden]

/-- The full outcome analysis of the Newton loop for a valid option type:
either it converges, returning an iterate whose model price is within
`tol` of the (non-NaN) market price, or it stops on a zero vega, or it
exhausts its fuel. -/
theorem ivLoop_trichotomy (S K T r : ℝ) (mp : Option ℝ) (option_type : String)
    (tol : ℝ) (hot : option_type = "call" ∨ option_type = "put") :
    ∀ (fuel : ℕ) (sigma0 : Option ℝ),
      (∃ s m p : ℝ,
          ivLoop S K T r mp option_type tol fuel sigma0 = Except.ok (some s) ∧
          mp = some m ∧
          black_scholes S K T r s option_type = Except.ok (some p) ∧
          |m - p| < tol)
      ∨ ivLoop S K T r mp option_type tol fuel sigma0 = Except.error PyErr.zeroVega
      ∨ ivLoop S K T r mp option_type tol fuel sigma0
          = Except.error PyErr.noConverge := by
  intro fuel
  induction fuel with
  | zero =>
    intro sigma0
    right
    right
    rfl
  | succ n ih =>
    intro sigma0
    rcases black_scholesF_valid S K T r sigma0 option_type hot with ⟨pr, hp⟩
    rw [ivLoop_succ_ok S K T r mp option_type tol n sigma0 pr hp]
    by_cases hveg : vegaF S K T r sigma0 = some 0
    · rw [if_pos hveg]
      right
      left
      rfl
    · rw [if_neg hveg]
      by_cases hconv : fabsLt (fsub mp pr) tol
      · rw [if_pos hconv]
        left
        rcases hconv with ⟨d, hd, hlt⟩
        cases mp with
        | none =>
          rw [fsub_none_left] at hd
          exact absurd hd (by simp)
        | some m =>
          cases pr with
          | none =>
            rw [fsub_none_right] at hd
            exact absurd hd (by simp)
          | some p =>
            have hd' : m - p = d := by
              have hfs : fsub (some m) (some p) = some (m - p) := rfl
              rw [hfs] at hd
              injection hd
            cases sigma0 with
            | none =>
              exfalso
              rcases hot with h | h <;> subst h
              · have hbsn : black_scholesF S K T r none ("call") = Except.ok none := by
                  unfold black_scholesF
                  rw [if_pos rfl]
                rw [hbsn] at hp
                injection hp with h2
                exact absurd h2 (by simp)
              · have hbsn : black_scholesF S K T r none ("put") = Except.ok none := by
                  unfold black_scholesF
                  rw [if_neg (by decide), if_pos rfl]
                rw [hbsn] at hp
                injection hp with h2
                exact absurd h2 (by simp)
            | some s =>
              refine ⟨s, m, p, rfl, rfl, hp, ?_⟩
              rw [hd']
              exact hlt
      · rw [if_neg hconv]
        exact ih (fadd sigma0 (fdiv (fsub mp pr) (vegaF S K T r sigma0)))

/-- Claim C1 (amended: the doubly-degenerate point `σ√T = 0` with
`ln(S/K)+(r+σ²/2)T = 0`, where both prices are NaN, is excluded):
call-put parity `call − put = S − K·e^(−rT)` holds exactly, for both
implementations of the closed-form pricer. -/
theorem C1_parity (S K T r sigma : ℝ) (hS : 0 < S) (hK : 0 < K) (hT : 0 < T)
    (hσ : 0 ≤ sigma) (hnd : ¬(bsDen T sigma = 0 ∧ bsNum S K T r sigma = 0)) :
    ∃ c p : ℝ,
      black_scholes S K T r sigma ("call") = Except.ok (some c) ∧
      black_scholes S K T r sigma ("put") = Except.ok (some p) ∧
      BSM S K T r sigma ("call") = some c ∧
      BSM S K T r sigma ("put") = some p ∧
      c - p = S - K * Real.exp (-(r * T)) := by
  rcases bsmCore_parity S K T r sigma hnd with ⟨c, p, hc, hp, hcp⟩
  refine ⟨c, p, ?_, ?_, ?_, ?_, hcp⟩
  · rw [black_scholes_call_ok, hc]
  · rw [black_scholes_put_ok, hp]
  · unfold BSM
    rw [if_pos rfl, hc]
  · unfold BSM
    rw [if_neg (by decide), hp]

/-- Witness for C1 at `S=K=T=σ=1`, `r=0`. -/
theorem C1_parity_witness :
    ∃ c p : ℝ,
      black_scholes 1 1 1 0 1 ("call") = Except.ok (some c) ∧
      black_scholes 1 1 1 0 1 ("put") = Except.ok (some p) ∧
      BSM 1 1 1 0 1 ("call") = some c ∧
      BSM 1 1 1 0 1 ("put") = some p ∧
      c - p = 1 - 1 * Real.exp (-(0 * 1)) :=
  C1_parity 1 1 1 0 1 (by norm_num) (by norm_num) (by norm_num) (by norm_num)
    (by norm_num [bsDen, Real.sqrt_one])

/-- Counterexample to C1 as stated: at the valid input
`S=1, K=1, T=1, r=0, σ=0` both pricers return NaN (the source computes
`d1 = 0.0/0.0`), so no real call/put prices exist, let alone parity. -/
theorem C1_counterexample :
    black_scholes 1 1 1 0 0 ("call") = Except.ok none ∧
    black_scholes 1 1 1 0 0 ("put") = Except.ok none ∧
    BSM 1 1 1 0 0 ("call") = none ∧
    BSM 1 1 1 0 0 ("put") = none ∧
    ¬∃ c p : ℝ,
      black_scholes 1 1 1 0 0 ("call") = Except.ok (some c) ∧
      black_scholes 1 1 1 0 0 ("put") = Except.ok (some p) ∧
      c - p = 1 - 1 * Real.exp (-(0 * 1)) := by
  have hd0 : bsDen 1 (0:ℝ) = 0 := by norm_num [bsDen]
  have h0 : bsNum 1 1 1 0 0 = 0 := by norm_num [bsNum, Real.log_one]
  have hcore : ∀ c : Bool, bsmCore 1 1 1 0 0 c = none := by
    intro c
    unfold bsmCore
    rw [if_neg (not_not_intro hd0), if_neg (by simp [h0]), if_neg (by simp [h0])]
  have hcall : black_scholes 1 1 1 0 0 ("call") = Except.ok none := by
    rw [black_scholes_call_ok, hcore true]
  have hput : black_scholes 1 1 1 0 0 ("put") = Except.ok none := by
    rw [black_scholes_put_ok, hcore false]
  refine ⟨hcall, hput, ?_, ?_, ?_⟩
  · unfold BSM
    rw [if_pos rfl, hcore true]
  · unfold BSM
    rw [if_neg (by decide), hcore false]
  · rintro ⟨c, p, hc, -, -⟩
    rw [hcall] at hc
    injection hc with h2
    exact absurd h2 (by simp)

/-- Claim C2 (amended: for inputs whose option type is valid — an invalid
type makes `black_scholes` raise `InvalidInput` out of the first
iteration, a fourth outcome): the solver either returns an iterate whose
model price is within `tol` of the market price, or raises the
zero-vega `ValueError`, or raises the non-convergence `ValueError`. -/
theorem C2_solver_trichotomy (S K T r tol : ℝ) (mp : Option ℝ) (max_iter : ℕ)
    (option_type : String)
    (hot : option_type = "call" ∨ option_type = "put") :
    (∃ s m p : ℝ,
        implied_volatility S K T r mp option_type tol max_iter
          = Except.ok (some s) ∧
        mp = some m ∧
        black_scholes S K T r s option_type = Except.ok (some p) ∧
        |m - p| < tol)
    ∨ implied_volatility S K T r mp option_type tol max_iter
        = Except.error PyErr.zeroVega
    ∨ implied_volatility S K T r mp option_type tol max_iter
        = Except.error PyErr.noConverge :=
  ivLoop_trichotomy S K T r mp option_type tol hot max_iter (some 0.2)

/-- Witness for C2 at a concrete valid input. -/
theorem C2_solver_trichotomy_witness :
    (∃ s m p : ℝ,
        implied_volatility 1 1 1 0 (some 1) ("call") (1 / 100000) 100
          = Except.ok (some s) ∧
        (some (1:ℝ) : Option ℝ) = some m ∧
        black_scholes 1 1 1 0 s ("call") = Except.ok (some p) ∧
        |m - p| < 1 / 100000)
    ∨ implied_volatility 1 1 1 0 (some 1) ("call") (1 / 100000) 100
        = Except.error PyErr.zeroVega
    ∨ implied_volatility 1 1 1 0 (some 1) ("call") (1 / 100000) 100
        = Except.error PyErr.noConverge :=
  C2_solver_trichotomy 1 1 1 0 (1 / 100000) (some 1) 100 ("call") (Or.inl rfl)

/-- Counterexample to C2 as stated: with the invalid option type `"x"`
the solver raises `InvalidInput` (propagated from `black_scholes` in its
first iteration) — an outcome distinct from all three claimed ones. -/
theorem C2_counterexample :
    implied_volatility 100 100 1 0 (some 10) ("x") (1 / 100000) 100
        = Except.error PyErr.invalidInput ∧
    PyErr.invalidInput ≠ PyErr.zeroVega ∧
    PyErr.invalidInput ≠ PyErr.noConverge := by
  refine ⟨?_, by decide, by decide⟩
  have hbs : black_scholesF 100 100 1 0 (some 0.2) ("x")
      = Except.error PyErr.invalidInput := by
    show black_scholes 100 100 1 0 0.2 ("x") = Except.error PyErr.invalidInput
    unfold black_scholes
    rw [if_neg (by decide), if_neg (by decide)]
  exact ivLoop_succ_err 100 100 1 0 (some 10) ("x") (1 / 100000) 99 (some 0.2)
    PyErr.invalidInput hbs

/-- Claim C3: a per-strike solver failure (`NonConvergence` or
`DegenerateDerivative`) never propagates out of the smile calibrator: the
whole run still succeeds and the failing strike records the NaN
sentinel. -/
theorem C3_no_propagation (S T r bv : ℝ) (sampled_vols : ℕ → List ℝ) (i : ℕ)
    (e : PyErr) (he : e = PyErr.noConverge ∨ e = PyErr.zeroVega) (hi : i < 50)
    (hsolve : implied_volatility S ((linspace (S * 0.8) (S * 1.2) 50).getD i 0)
        T r
        (smileMarketAvg S ((linspace (S * 0.8) (S * 1.2) 50).getD i 0) T r
          (sampled_vols i))
        ("call") (1 / 100000) 100 = Except.error e) :
    ∃ strikes ivs,
      monte_carlo_volatility_smile S T r bv sampled_vols
        = Except.ok (strikes, ivs) ∧ ivs.getD i none = none := by
  refine ⟨_, _, smile_eq S T r bv sampled_vols, ?_⟩
  have hlen : (linspace (S * 0.8) (S * 1.2) 50).length = 50 :=
    linspace_length _ _ _
  have hi1 : i < ((linspace (S * 0.8) (S * 1.2) 50).enum.map
      (fun p => smileVal S T r p.2 (sampled_vols p.1))).length := by
    rw [List.length_map, List.enum_length, hlen]
    exact hi
  rw [List.getD_eq_getElem?_getD, List.getElem?_eq_getElem hi1, Option.getD_some]
  rw [List.getElem_map, List.getElem_enum]
  have hlen2 : i < (linspace (S * 0.8) (S * 1.2) 50).length := by
    rw [hlen]
    exact hi
  have hK : (linspace (S * 0.8) (S * 1.2) 50).getD i 0
      = (linspace (S * 0.8) (S * 1.2) 50)[i] := by
    rw [List.getD_eq_getElem?_getD, List.getElem?_eq_getElem hlen2,
      Option.getD_some]
  rw [hK] at hsolve
  unfold smileVal
  rw [hsolve]

/-- Witness for C3: with every per-strike sample list empty the synthetic
market price is NaN, the solver fails with `NonConvergence` at strike 0,
and the calibrator still succeeds, recording the sentinel. -/
theorem C3_no_propagation_witness :
    ∃ strikes ivs,
      monte_carlo_volatility_smile 1 1 0 0.2 (fun _ => ([] : List ℝ))
        = Except.ok (strikes, ivs) ∧ ivs.getD 0 none = none := by
  apply C3_no_propagation 1 1 0 0.2 (fun _ => ([] : List ℝ)) 0 PyErr.noConverge
    (Or.inl rfl) (by norm_num)
  have havg : smileMarketAvg 1 ((linspace (1 * 0.8) (1 * 1.2) 50).getD 0 0) 1 0
      ([] : List ℝ) = none := rfl
  rw [havg]
  apply implied_volatility_nan_mp
  · norm_num
  · have hden : bsDen (1:ℝ) 0.2 ≠ 0 := by
      norm_num [bsDen, Real.sqrt_one]
    rw [vegaF_some 1 _ 1 0 0.2 hden]
    intro hcon
    injection hcon with hval
    rw [Real.sqrt_one, mul_one, one_mul] at hval
    exact absurd hval (ne_of_gt (normPdf_pos _))


/-- Claim C4 (amended): `black_scholes` does raise `InvalidInput` on a
type outside call/put, but `monte_carlo_option_pricing` fails with an
`UnboundLocalError` (its `payoff` variable is never assigned) rather than
a designed `InvalidInput`, and `BSM` performs no validation at all: it
silently computes its put branch. -/
theorem C4_invalid_type (S K T r sigma : ℝ) (Z : List ℝ) (t : String)
    (h1 : t ≠ "call") (h2 : t ≠ "put") :
    black_scholes S K T r sigma t = Except.error PyErr.invalidInput ∧
    monte_carlo_option_pricing S K T r sigma Z t
      = Except.error PyErr.unboundLocal ∧
    BSM S K T r sigma t = bsmCore S K T r sigma false := by
  refine ⟨?_, monte_carlo_invalid_type S K T r sigma Z t h1 h2, ?_⟩
  · unfold black_scholes
    rw [if_neg h1, if_neg h2]
  · unfold BSM
    rw [if_neg h1]

/-- Witness for C4 at the concrete invalid type `"banana"`. -/
theorem C4_invalid_type_witness :
    black_scholes 1 1 1 0 1 ("banana") = Except.error PyErr.invalidInput ∧
    monte_carlo_option_pricing 1 1 1 0 1 [0] ("banana")
      = Except.error PyErr.unboundLocal ∧
    BSM 1 1 1 0 1 ("banana") = bsmCore 1 1 1 0 1 false :=
  C4_invalid_type 1 1 1 0 1 [0] ("banana") (by decide) (by decide)

/-- Counterexample to C4 as stated: the entry point `BSM` accepts the
invalid option type `"banana"` and returns a price instead of raising. -/
theorem C4_counterexample :
    ∃ v : ℝ, BSM 100 105 2 0.05 0.2 ("banana") = some v := by
  have hden : bsDen 2 (0.2:ℝ) ≠ 0 := by
    have h2 : (0:ℝ) < Real.sqrt 2 := Real.sqrt_pos.mpr (by norm_num)
    unfold bsDen
    positivity
  refine ⟨105 * Real.exp (-(0.05 * 2)) * normCdf (-bsD2 100 105 2 0.05 0.2)
    - 100 * normCdf (-bsD1 100 105 2 0.05 0.2), ?_⟩
  unfold BSM
  rw [if_neg (by decide)]
  exact bsmCore_put_eq 100 105 2 0.05 0.2 hden

/-- Claim C5: for a nonempty batch of shocks the Monte Carlo pricer
returns exactly `e^(-rT)` times the mean payoff over the simulated
geometric-Brownian-motion terminal prices, for both option types
(`mcSpecPrice` is the spec-side formula). -/
theorem C5_mc_refinement (S0 K T r sigma : ℝ) (Z : List ℝ) (hZ : Z ≠ []) :
    monte_carlo_option_pricing S0 K T r sigma Z ("call")
        = Except.ok (some (mcSpecPrice S0 K T r sigma Z true)) ∧
    monte_carlo_option_pricing S0 K T r sigma Z ("put")
        = Except.ok (some (mcSpecPrice S0 K T r sigma Z false)) :=
  ⟨monte_carlo_call_eq S0 K T r sigma Z hZ,
    monte_carlo_put_eq S0 K T r sigma Z hZ⟩

/-- Witness for C5 with a single drawn shock. -/
theorem C5_mc_refinement_witness :
    monte_carlo_option_pricing 1 1 1 0 1 [0] ("call")
        = Except.ok (some (mcSpecPrice 1 1 1 0 1 [0] true)) ∧
    monte_carlo_option_pricing 1 1 1 0 1 [0] ("put")
        = Except.ok (some (mcSpecPrice 1 1 1 0 1 [0] false)) :=
  C5_mc_refinement 1 1 1 0 1 [0] (by simp)

/-- Claim C6: the calibrator succeeds and returns exactly 50 strikes
evenly spaced over `[0.8S, 1.2S]` inclusive, strictly ascending for
`S > 0`, with the implied-volatility sequence positionally aligned (entry
`i` is produced from strike `i` and that strike's samples, sentinel
entries kept in place). -/
theorem C6_smile_structure (S T r bv : ℝ) (sampled_vols : ℕ → List ℝ)
    (hS : 0 < S) (hT : 0 < T) :
    ∃ strikes ivs,
      monte_carlo_volatility_smile S T r bv sampled_vols
        = Except.ok (strikes, ivs) ∧
      strikes.length = 50 ∧
      ivs.length = 50 ∧
      strikes.getD 0 0 = S * 0.8 ∧
      strikes.getD 49 0 = S * 1.2 ∧
      (∀ i : ℕ, i + 1 < 50 →
        strikes.getD (i + 1) 0 - strikes.getD i 0 = (S * 1.2 - S * 0.8) / 49) ∧
      (∀ i j : ℕ, i < j → j < 50 → strikes.getD i 0 < strikes.getD j 0) ∧
      (∀ i : ℕ, i < 50 →
        smileStep S T r (strikes.getD i 0) (sampled_vols i)
          = Except.ok (ivs.getD i none)) := by
  refine ⟨_, _, smile_eq S T r bv sampled_vols, linspace_length _ _ _,
    ?_, ?_, ?_, ?_, ?_, ?_⟩
  · rw [List.length_map, List.enum_length, linspace_length]
  · rw [linspace_getD _ _ 50 0 (by norm_num)]
    norm_num
  · rw [linspace_getD _ _ 50 49 (by norm_num)]
    norm_num
  · intro i hi
    rw [linspace_getD _ _ 50 (i + 1) hi,
      linspace_getD _ _ 50 i (by omega)]
    push_cast
    ring
  · intro i j hij hj
    rw [linspace_getD _ _ 50 i (by omega), linspace_getD _ _ 50 j hj]
    have hc : (0:ℝ) < S * 1.2 - S * 0.8 := by linarith
    have hij' : (i:ℝ) < j := Nat.cast_lt.mpr hij
    have hmul := mul_lt_mul_of_pos_left hij' hc
    have h49 : ((50:ℕ):ℝ) - 1 = 49 := by norm_num
    rw [h49]
    linarith
  · intro i hi
    have hlen2 : i < (linspace (S * 0.8) (S * 1.2) 50).length := by
      rw [linspace_length]
      exact hi
    have hK : (linspace (S * 0.8) (S * 1.2) 50).getD i 0
        = (linspace (S * 0.8) (S * 1.2) 50)[i] := by
      rw [List.getD_eq_getElem?_getD, List.getElem?_eq_getElem hlen2,
        Option.getD_some]
    have hi1 : i < ((linspace (S * 0.8) (S * 1.2) 50).enum.map
        (fun p => smileVal S T r p.2 (sampled_vols p.1))).length := by
      rw [List.length_map, List.enum_length, linspace_length]
      exact hi
    rw [hK, List.getD_eq_getElem?_getD, List.getElem?_eq_getElem hi1,
      Option.getD_some, List.getElem_map, List.getElem_enum]
    exact smileStep_eq S T r _ (sampled_vols i)

/-- Witness for C6 at the spec's test parameters. -/
theorem C6_smile_structure_witness :
    ∃ strikes ivs,
      monte_carlo_volatility_smile 100 1 0.05 0.2 (fun _ => ([] : List ℝ))
        = Except.ok (strikes, ivs) ∧
      strikes.length = 50 ∧
      ivs.length = 50 ∧
      strikes.getD 0 0 = 100 * 0.8 ∧
      strikes.getD 49 0 = 100 * 1.2 ∧
      (∀ i : ℕ, i + 1 < 50 →
        strikes.getD (i + 1) 0 - strikes.getD i 0
          = (100 * 1.2 - 100 * 0.8) / 49) ∧
      (∀ i j : ℕ, i < j → j < 50 → strikes.getD i 0 < strikes.getD j 0) ∧
      (∀ i : ℕ, i < 50 →
        smileStep 100 1 0.05 (strikes.getD i 0) []
          = Except.ok (ivs.getD i none)) :=
  C6_smile_structure 100 1 0.05 0.2 (fun _ => []) (by norm_num) (by norm_num)

/-- Claim C8 (amended: the doubly-degenerate NaN point of the closed
form is excluded): all three pricers return nonnegative prices on valid
inputs. -/
theorem C8_nonneg (S K T r sigma : ℝ) (Z : List ℝ) (option_type : String)
    (hS : 0 < S) (hK : 0 < K) (hT : 0 < T) (hσ : 0 ≤ sigma)
    (hnd : ¬(bsDen T sigma = 0 ∧ bsNum S K T r sigma = 0))
    (hot : option_type = "call" ∨ option_type = "put") (hZ : Z ≠ []) :
    (∃ v, black_scholes S K T r sigma option_type
        = Except.ok (some v) ∧ 0 ≤ v) ∧
    (∃ v, BSM S K T r sigma option_type = some v ∧ 0 ≤ v) ∧
    (∃ v, monte_carlo_option_pricing S K T r sigma Z option_type
        = Except.ok (some v) ∧ 0 ≤ v) := by
  rcases hot with h | h <;> subst h
  · rcases bsmCore_nonneg S K T r sigma hS hK hT hσ hnd true with ⟨v, hv, hv0⟩
    refine ⟨⟨v, ?_, hv0⟩, ⟨v, ?_, hv0⟩,
      ⟨mcSpecPrice S K T r sigma Z true,
        monte_carlo_call_eq S K T r sigma Z hZ,
        mcSpecPrice_nonneg S K T r sigma Z true⟩⟩
    · rw [black_scholes_call_ok, hv]
    · unfold BSM
      rw [if_pos rfl, hv]
  · rcases bsmCore_nonneg S K T r sigma hS hK hT hσ hnd false with ⟨v, hv, hv0⟩
    refine ⟨⟨v, ?_, hv0⟩, ⟨v, ?_, hv0⟩,
      ⟨mcSpecPrice S K T r sigma Z false,
        monte_carlo_put_eq S K T r sigma Z hZ,
        mcSpecPrice_nonneg S K T r sigma Z false⟩⟩
    · rw [black_scholes_put_ok, hv]
    · unfold BSM
      rw [if_neg (by decide), hv]

/-- Witness for C8 at `S=K=T=σ=1`, `r=0`, one shock. -/
theorem C8_nonneg_witness :
    (∃ v, black_scholes 1 1 1 0 1 ("call") = Except.ok (some v) ∧ 0 ≤ v) ∧
    (∃ v, BSM 1 1 1 0 1 ("call") = some v ∧ 0 ≤ v) ∧
    (∃ v, monte_carlo_option_pricing 1 1 1 0 1 [0] ("call")
        = Except.ok (some v) ∧ 0 ≤ v) :=
  C8_nonneg 1 1 1 0 1 [0] ("call") (by norm_num) (by norm_num) (by norm_num)
    (by norm_num) (by norm_num [bsDen, Real.sqrt_one]) (Or.inl rfl) (by simp)

/-- Counterexample to C8 as stated: at the valid input
`S=2, K=2, T=1, r=0, σ=0` the closed-form pricer returns NaN
(`d1 = 0.0/0.0` in the source), not a nonnegative price. -/
theorem C8_counterexample :
    black_scholes 2 2 1 0 0 ("call") = Except.ok none ∧
    ¬∃ v : ℝ, black_scholes 2 2 1 0 0 ("call") = Except.ok (some v) ∧ 0 ≤ v := by
  have hd0 : bsDen 1 (0:ℝ) = 0 := by norm_num [bsDen]
  have h0 : bsNum 2 2 1 0 0 = 0 := by norm_num [bsNum, Real.log_one]
  have hcall : black_scholes 2 2 1 0 0 ("call") = Except.ok none := by
    rw [black_scholes_call_ok]
    unfold bsmCore
    rw [if_neg (not_not_intro hd0), if_neg (by simp [h0]), if_neg (by simp [h0])]
  refine ⟨hcall, ?_⟩
  rintro ⟨v, hv, -⟩
  rw [hcall] at hv
  injection hv with h2
  exact absurd h2 (by simp)

/-- Claim C9 (amended): the closed-form pricer never fails on a valid
option type — also not at an exactly-zero `d1` denominator (`σ = 0`),
where it returns a value (the IEEE `±inf`/NaN arithmetic result) instead
of raising; near-zero `σ` likewise returns normally. -/
theorem C9_no_failure (S K T r sigma : ℝ) (option_type : String)
    (hot : option_type = "call" ∨ option_type = "put") :
    (∃ p, black_scholes S K T r 0 option_type = Except.ok p) ∧
    (∃ p, black_scholes S K T r sigma option_type = Except.ok p) := by
  rcases hot with h | h <;> subst h
  · exact ⟨⟨_, black_scholes_call_ok S K T r 0⟩,
      ⟨_, black_scholes_call_ok S K T r sigma⟩⟩
  · exact ⟨⟨_, black_scholes_put_ok S K T r 0⟩,
      ⟨_, black_scholes_put_ok S K T r sigma⟩⟩

/-- Witness for C9 with a near-zero volatility. -/
theorem C9_no_failure_witness :
    (∃ p, black_scholes 1 2 3 0 0 ("call") = Except.ok p) ∧
    (∃ p, black_scholes 1 2 3 0 (1 / 1000) ("call") = Except.ok p) :=
  C9_no_failure 1 2 3 0 (1 / 1000) ("call") (Or.inl rfl)

/-- Counterexample to C9 as stated: at `S=2, K=1, T=1, r=0, σ=0` the
denominator `σ√T` is exactly zero, yet the pricer does not fail — it
returns the price `1` (the source computes `d1 = +inf`, `Φ(+inf) = 1`,
price `S - K e^{-rT} = 1`). -/
theorem C9_counterexample :
    black_scholes 2 1 1 0 0 ("call") = Except.ok (some 1) ∧
    ∀ e, black_scholes 2 1 1 0 0 ("call") ≠ Except.error e := by
  have hd0 : bsDen 1 (0:ℝ) = 0 := by norm_num [bsDen]
  have hpos : 0 < bsNum 2 1 1 0 0 := by
    have hn : bsNum 2 1 1 0 0 = Real.log 2 := by norm_num [bsNum]
    rw [hn]
    exact Real.log_pos (by norm_num)
  have hcall : black_scholes 2 1 1 0 0 ("call") = Except.ok (some 1) := by
    rw [black_scholes_call_ok]
    unfold bsmCore
    rw [if_neg (not_not_intro hd0), if_pos hpos]
    norm_num [Real.exp_zero]
  exact ⟨hcall, fun e he => by rw [hcall] at he; exact Except.noConfusion he⟩

/-- Claim C10: `BSM` performs no option-type validation — every type
other than exactly `"call"` lands in the `else` branch and produces the
Black-Scholes put price `K e^{-rT} Φ(-d2) - S Φ(-d1)` (spelled with the
formula whenever its denominator is nonzero). -/
theorem C10_bsm_put_branch (S K T r sigma : ℝ) (t : String) (ht : t ≠ "call") :
    BSM S K T r sigma t = bsmCore S K T r sigma false ∧
    (bsDen T sigma ≠ 0 →
      BSM S K T r sigma t
        = some (K * Real.exp (-(r * T)) * normCdf (-bsD2 S K T r sigma)
            - S * normCdf (-bsD1 S K T r sigma))) := by
  constructor
  · unfold BSM
    rw [if_neg ht]
  · intro hden
    unfold BSM
    rw [if_neg ht]
    exact bsmCore_put_eq S K T r sigma hden

/-- Witness for C10 at the concrete type `"banana"`, with the explicit
put formula. -/
theorem C10_bsm_put_branch_witness :
    BSM 1 1 1 0 1 ("banana") = bsmCore 1 1 1 0 1 false ∧
    BSM 1 1 1 0 1 ("banana")
      = some (1 * Real.exp (-(0 * 1)) * normCdf (-bsD2 1 1 1 0 1)
          - 1 * normCdf (-bsD1 1 1 1 0 1)) :=
  ⟨(C10_bsm_put_branch 1 1 1 0 1 ("banana") (by decide)).1,
    (C10_bsm_put_branch 1 1 1 0 1 ("banana") (by decide)).2
      (by norm_num [bsDen, Real.sqrt_one])⟩

end
